import Mathlib

/-!
Verification of the technical-indicator computation engine of the
Bitcoin-Data-Analysis-Dashboard repository (`technical_indicators.py`).

The engine operates on pandas float series.  We embed a float value as a
rational number extended with the IEEE special values `+inf`, `-inf` and
`NaN` (pandas' missing-data marker), and give the arithmetic used by the
source the IEEE propagation rules (`x/0 = ±inf` for `x ≠ 0`, `0/0 = NaN`,
`NaN` absorbs, comparisons with `NaN` are false).  Finite arithmetic is
exact rational arithmetic; none of the verified claims depends on rounding.
Signed zero is dropped: the only denominators the source produces are the
rolling means of non-negative series and differences `high-low`, whose
zeroes behave identically for `+0` and `-0` in every expression below.
-/

inductive Val : Type where
  | num : ℚ → Val
  | pinf : Val
  | ninf : Val
  | nan : Val
deriving DecidableEq, Repr

namespace Val

/-- `NaN` test (pandas' missing-data test). -/
def isNan : Val → Bool
  | nan => true
  | _ => false

/-- The value is an ordinary (finite) number: neither `NaN` nor infinite. -/
def isNum : Val → Bool
  | num _ => true
  | _ => false

/-- IEEE addition. -/
def add : Val → Val → Val
  | num a, num b => num (a + b)
  | num _, pinf => pinf
  | num _, ninf => ninf
  | pinf, num _ => pinf
  | ninf, num _ => ninf
  | pinf, pinf => pinf
  | ninf, ninf => ninf
  | pinf, ninf => nan
  | ninf, pinf => nan
  | nan, _ => nan
  | _, nan => nan

/-- IEEE negation. -/
def neg : Val → Val
  | num a => num (-a)
  | pinf => ninf
  | ninf => pinf
  | nan => nan

/-- IEEE subtraction. -/
def sub (a b : Val) : Val := add a (neg b)

/-- IEEE multiplication (`0·∞ = NaN`). -/
def mul : Val → Val → Val
  | num a, num b => num (a * b)
  | num a, pinf => if 0 < a then pinf else if a < 0 then ninf else nan
  | num a, ninf => if 0 < a then ninf else if a < 0 then pinf else nan
  | pinf, num a => if 0 < a then pinf else if a < 0 then ninf else nan
  | ninf, num a => if 0 < a then ninf else if a < 0 then pinf else nan
  | pinf, pinf => pinf
  | pinf, ninf => ninf
  | ninf, pinf => ninf
  | ninf, ninf => pinf
  | nan, _ => nan
  | _, nan => nan

/-- IEEE division: `x/0 = ±inf` for `x ≠ 0`, `0/0 = NaN`, `x/±inf = 0`. -/
def div : Val → Val → Val
  | num a, num b =>
      if b = 0 then (if a = 0 then nan else if 0 < a then pinf else ninf)
      else num (a / b)
  | num _, pinf => num 0
  | num _, ninf => num 0
  | pinf, num b => if b < 0 then ninf else pinf
  | ninf, num b => if b < 0 then pinf else ninf
  | pinf, pinf => nan
  | pinf, ninf => nan
  | ninf, pinf => nan
  | ninf, ninf => nan
  | nan, _ => nan
  | _, nan => nan

/-- IEEE absolute value. -/
def abs : Val → Val
  | num a => num |a|
  | pinf => pinf
  | ninf => pinf
  | nan => nan

/-- IEEE `<` as a Boolean: every comparison with `NaN` is false. -/
def ltb : Val → Val → Bool
  | num a, num b => a < b
  | num _, pinf => true
  | ninf, num _ => true
  | ninf, pinf => true
  | _, _ => false

/-- IEEE `>` as a Boolean: every comparison with `NaN` is false. -/
def gtb (a b : Val) : Bool := ltb b a

end Val

/-! ### Series primitives (the pandas calls used by the source) -/

/-- `Series.diff()`: `NaN` at position 0, `x[i] − x[i−1]` afterwards. -/
def diffV (xs : List Val) : List Val :=
  match xs with
  | [] => []
  | _ :: tl => Val.nan :: List.zipWith Val.sub tl xs

/-- `Series.shift()`: `NaN` at position 0, then the series without its
last element (each value moved one step forward). -/
def shiftV (xs : List Val) : List Val :=
  match xs with
  | [] => []
  | _ :: _ => Val.nan :: xs.dropLast

/-- `s.where(s > 0, 0)`: keep values strictly greater than 0, replace the
rest (including `NaN`: its comparison is false) by 0. -/
def whereGtZero (xs : List Val) : List Val :=
  xs.map (fun v => if Val.gtb v (Val.num 0) then v else Val.num 0)

/-- `s.where(s < 0, 0)`: keep values strictly less than 0, replace the
rest (including `NaN`) by 0. -/
def whereLtZero (xs : List Val) : List Val :=
  xs.map (fun v => if Val.ltb v (Val.num 0) then v else Val.num 0)

/-- The trailing window of size `w` ending at position `i`:
positions `max 0 (i+1−w) … i`. -/
def winAt (w : ℕ) (xs : List Val) (i : ℕ) : List Val :=
  (xs.take (i + 1)).drop (i + 1 - w)

/-- The non-`NaN` values of the window (pandas excludes missing values
from rolling aggregations). -/
def validAt (w : ℕ) (xs : List Val) (i : ℕ) : List Val :=
  (winAt w xs i).filter (fun v => !v.isNan)

/-- `Series.rolling(window=w, min_periods=minp).mean()`: at each position,
the mean of the non-`NaN` values of the trailing window, `NaN` when fewer
than `minp` of them exist. -/
def rollingMean (w minp : ℕ) (xs : List Val) : List Val :=
  (List.range xs.length).map (fun i =>
    let valid := validAt w xs i
    if valid.length < minp then Val.nan
    else Val.div (valid.foldr Val.add (Val.num 0)) (Val.num valid.length))

/-- Fold step for a `NaN`-skipping maximum. -/
def maxStep (x y : Val) : Val := if Val.ltb x y then y else x

/-- Fold step for a `NaN`-skipping minimum. -/
def minStep (x y : Val) : Val := if Val.gtb x y then y else x

/-- `Series.rolling(window=w).max()` (default `min_periods = w`). -/
def rollingMax (w : ℕ) (xs : List Val) : List Val :=
  (List.range xs.length).map (fun i =>
    let valid := validAt w xs i
    if valid.length < w then Val.nan else valid.foldr maxStep Val.nan)

/-- `Series.rolling(window=w).min()` (default `min_periods = w`). -/
def rollingMin (w : ℕ) (xs : List Val) : List Val :=
  (List.range xs.length).map (fun i =>
    let valid := validAt w xs i
    if valid.length < w then Val.nan else valid.foldr minStep Val.nan)

/-- One step of pandas' `ewm(..., adjust=False).mean()` state machine
(`pandas/_libs/window/aggregations.pyx`): `avg?` is the running weighted
average (`none` before the first observation), `oldWt` the accumulated
weight of the old average.  A `NaN` input leaves the average unchanged
(and decays the old weight); an observation updates
`avg ← (oldWt·(1−α)·avg + α·x) / (oldWt·(1−α) + α)` and resets the old
weight to 1. -/
def ewmStep (α : ℚ) (st : Option Val × ℚ) (x : Val) : (Option Val × ℚ) × Val :=
  match st, x with
  | (none, oldWt), Val.nan => ((none, oldWt), Val.nan)
  | (none, _), x => ((some x, 1), x)
  | (some avg, oldWt), Val.nan => ((some avg, oldWt * (1 - α)), avg)
  | (some avg, oldWt), x =>
      let ow := oldWt * (1 - α)
      let avg' := Val.div (Val.add (Val.mul (Val.num ow) avg) (Val.mul (Val.num α) x))
        (Val.num (ow + α))
      ((some avg', 1), avg')

/-- Run of the `ewm` state machine over a series. -/
def ewmRun (α : ℚ) (st : Option Val × ℚ) : List Val → List Val
  | [] => []
  | x :: rest =>
      let r := ewmStep α st x
      r.2 :: ewmRun α r.1 rest

/-- `Series.ewm(span=w, adjust=False).mean()` with `α = 2/(w+1)`. -/
def ewmMean (w : ℕ) (xs : List Val) : List Val :=
  ewmRun (2 / ((w : ℚ) + 1)) (none, 1) xs

/-! ### The indicator library (`TechnicalIndicators` methods) -/

namespace TechnicalIndicators

/-- `simple_moving_average`: `data.rolling(window=window, min_periods=1).mean()`. -/
def simple_moving_average (data : List Val) (window : ℕ) : List Val :=
  rollingMean window 1 data

/-- `exponential_moving_average`: `data.ewm(span=window, adjust=False).mean()`. -/
def exponential_moving_average (data : List Val) (window : ℕ) : List Val :=
  ewmMean window data

/-- The `gain` local of `relative_strength_index`:
`(delta.where(delta > 0, 0)).rolling(window=window).mean()` for
`delta = data.diff()`. -/
def rsiGain (data : List Val) (window : ℕ) : List Val :=
  rollingMean window window (whereGtZero (diffV data))

/-- The `loss` local of `relative_strength_index`:
`(-delta.where(delta < 0, 0)).rolling(window=window).mean()`. -/
def rsiLoss (data : List Val) (window : ℕ) : List Val :=
  rollingMean window window ((whereLtZero (diffV data)).map Val.neg)

/-- `relative_strength_index`: `rs = gain / loss`,
`rsi = 100 - 100/(1 + rs)`. -/
def relative_strength_index (data : List Val) (window : ℕ := 14) : List Val :=
  let rs := List.zipWith Val.div (rsiGain data window) (rsiLoss data window)
  rs.map (fun r => Val.sub (Val.num 100) (Val.div (Val.num 100) (Val.add (Val.num 1) r)))

/-- `macd`: MACD line = EMA(fast) − EMA(slow), signal line =
EMA(MACD line, signal), histogram = MACD line − signal line. -/
def macd (data : List Val) (fast : ℕ := 12) (slow : ℕ := 26) (signal : ℕ := 9) :
    List Val × List Val × List Val :=
  let ema_fast := exponential_moving_average data fast
  let ema_slow := exponential_moving_average data slow
  let macd_line := List.zipWith Val.sub ema_fast ema_slow
  let signal_line := exponential_moving_average macd_line signal
  let histogram := List.zipWith Val.sub macd_line signal_line
  (macd_line, signal_line, histogram)

/-- Sample standard deviation of the non-`NaN` window values
(`Series.rolling(window).std()`, `ddof = 1`; `n = 1` gives `0/0 = NaN`).
The host's irrational square root is modelled by `Rat.sqrt`; no claim in
this development depends on the numeric value of a standard deviation. -/
def rollingStd (w : ℕ) (xs : List Val) : List Val :=
  (List.range xs.length).map (fun i =>
    let valid := validAt w xs i
    if valid.length < w then Val.nan
    else
      let mean := Val.div (valid.foldr Val.add (Val.num 0)) (Val.num valid.length)
      let sq := valid.map (fun v => Val.mul (Val.sub v mean) (Val.sub v mean))
      match Val.div (sq.foldr Val.add (Val.num 0)) (Val.num ((valid.length : ℚ) - 1)) with
      | Val.num q => Val.num (Rat.sqrt q)
      | v => v)

/-- `bollinger_bands`: middle = SMA(window), upper/lower = middle ±
`num_std` · rolling std. -/
def bollinger_bands (data : List Val) (window : ℕ := 20) (num_std : ℕ := 2) :
    List Val × List Val × List Val :=
  let sma := simple_moving_average data window
  let std := rollingStd window data
  let upper_band := List.zipWith Val.add sma (std.map (Val.mul · (Val.num num_std)))
  let lower_band := List.zipWith Val.sub sma (std.map (Val.mul · (Val.num num_std)))
  (upper_band, sma, lower_band)

/-- `stochastic_oscillator`:
`%K = 100·(close − lowest_low(k_period)) / (highest_high(k_period) − lowest_low(k_period))`,
`%D = rolling mean of %K over d_period`. -/
def stochastic_oscillator (high low close : List Val)
    (k_period : ℕ := 14) (d_period : ℕ := 3) : List Val × List Val :=
  let lowest_low := rollingMin k_period low
  let highest_high := rollingMax k_period high
  let k_percent := List.zipWith3
    (fun c ll hh => Val.mul (Val.num 100) (Val.div (Val.sub c ll) (Val.sub hh ll)))
    close lowest_low highest_high
  let d_percent := rollingMean d_period d_period k_percent
  (k_percent, d_percent)

/-- `williams_r`:
`-100·(highest_high − close) / (highest_high − lowest_low)` over `period`. -/
def williams_r (high low close : List Val) (period : ℕ := 14) : List Val :=
  let highest_high := rollingMax period high
  let lowest_low := rollingMin period low
  List.zipWith3
    (fun hh ll c => Val.mul (Val.num (-100)) (Val.div (Val.sub hh c) (Val.sub hh ll)))
    highest_high lowest_low close

/-- Row-wise maximum of the three true-range candidates.
`DataFrame.max(axis=1)` skips `NaN` (default `skipna=True`): the maximum
of the non-`NaN` entries, `NaN` only when all three are. -/
def rowMax3 (a b c : Val) : Val :=
  (([a, b, c].filter (fun v => !v.isNan)).foldr maxStep Val.nan)

/-- `average_true_range`:
`tr1 = high − low`, `tr2 = |high − close.shift()|`, `tr3 = |low − close.shift()|`,
true range = row-wise max, ATR = rolling mean of the true range over `period`. -/
def average_true_range (high low close : List Val) (period : ℕ := 14) : List Val :=
  let tr1 := List.zipWith Val.sub high low
  let tr2 := List.zipWith (fun h pc => Val.abs (Val.sub h pc)) high (shiftV close)
  let tr3 := List.zipWith (fun l pc => Val.abs (Val.sub l pc)) low (shiftV close)
  let true_range := List.zipWith3 rowMax3 tr1 tr2 tr3
  rollingMean period period true_range

end TechnicalIndicators

/-! ### Data frames (`pandas.DataFrame` as used by the pipeline) -/

/-- A data frame: an ordered association of column names to value columns.
Column order is observable in pandas and preserved here. -/
structure Frame where
  cols : List (String × List Val)
deriving DecidableEq, Repr

namespace Frame

/-- `name in df.columns` / `df[name]` read access. -/
def getCol (f : Frame) (name : String) : Option (List Val) :=
  (f.cols.find? (fun p => p.1 = name)).map Prod.snd

/-- `df[name]` read with an (unreachable in the verified paths) default. -/
def colD (f : Frame) (name : String) : List Val :=
  (f.getCol name).getD []

/-- `df[name] = v`: replace the column in place when it exists, otherwise
append it at the end (pandas keeps existing column positions). -/
def setCol (f : Frame) (name : String) (v : List Val) : Frame :=
  if (f.cols.find? (fun p => p.1 = name)).isSome then
    ⟨f.cols.map (fun p => if p.1 = name then (name, v) else p)⟩
  else ⟨f.cols ++ [(name, v)]⟩

/-- Number of rows (all columns of a pandas frame share one index). -/
def nRows (f : Frame) : ℕ :=
  match f.cols with
  | [] => 0
  | c :: _ => c.2.length

/-- The entry of the last row in a column (`df.iloc[-1][name]`); only
evaluated behind the source's non-empty guard. -/
def lastV (xs : List Val) : Val := xs.getLastD Val.nan

end Frame

namespace TechnicalIndicators

/-- One iteration of the `for indicator in selected_indicators` dispatch in
`calculate_all_indicators`: the matching indicator columns are assigned,
an unrecognized name falls through to the final `else` and changes
nothing. -/
def addIndicator (df : Frame) (indicator : String) : Frame :=
  if indicator = "SMA_20" then
    df.setCol "SMA_20" (simple_moving_average (df.colD "close") 20)
  else if indicator = "SMA_50" then
    df.setCol "SMA_50" (simple_moving_average (df.colD "close") 50)
  else if indicator = "EMA_12" then
    df.setCol "EMA_12" (exponential_moving_average (df.colD "close") 12)
  else if indicator = "EMA_26" then
    df.setCol "EMA_26" (exponential_moving_average (df.colD "close") 26)
  else if indicator = "RSI" then
    df.setCol "RSI" (relative_strength_index (df.colD "close") 14)
  else if indicator = "MACD" then
    let r := macd (df.colD "close") 12 26 9
    (((df.setCol "MACD" r.1).setCol "MACD_Signal" r.2.1).setCol "MACD_Histogram" r.2.2)
  else if indicator = "Bollinger_Bands" then
    let r := bollinger_bands (df.colD "close") 20 2
    (((df.setCol "BB_Upper" r.1).setCol "BB_Middle" r.2.1).setCol "BB_Lower" r.2.2)
  else if indicator = "Stochastic" then
    let r := stochastic_oscillator (df.colD "high") (df.colD "low") (df.colD "close") 14 3
    ((df.setCol "Stoch_K" r.1).setCol "Stoch_D" r.2)
  else if indicator = "Williams_R" then
    df.setCol "Williams_R" (williams_r (df.colD "high") (df.colD "low") (df.colD "close") 14)
  else if indicator = "ATR" then
    df.setCol "ATR" (average_true_range (df.colD "high") (df.colD "low") (df.colD "close") 14)
  else df

/-- The column-normalization prelude of `calculate_all_indicators`: ensure
a `close` column exists (fall back to `price`, else raise `ValueError`). -/
def normalizeClose (df : Frame) : Except String Frame :=
  if (df.getCol "close").isSome then Except.ok df
  else
    match df.getCol "price" with
    | some p => Except.ok (df.setCol "close" p)
    | none => Except.error "DataFrame must contain 'close' or 'price' column"

/-- Fill a missing OHLC column with a copy of `close`. -/
def fillFromClose (df : Frame) (name : String) : Frame :=
  if (df.getCol name).isSome then df else df.setCol name (df.colD "close")

/-- `calculate_all_indicators`: copy the input, normalize the `close`
column (raising on a structurally invalid frame), synthesize missing
`open`/`high`/`low` from `close`, then dispatch on each selected
indicator name in order. -/
def calculate_all_indicators (df : Frame) (selected_indicators : List String) :
    Except String Frame :=
  match normalizeClose df with
  | Except.error e => Except.error e
  | Except.ok r1 =>
      let r2 := fillFromClose (fillFromClose (fillFromClose r1 "open") "high") "low"
      Except.ok (selected_indicators.foldl addIndicator r2)

/-- The moving-average block of `get_trend_analysis`: present exactly
when both SMA columns exist; `NaN` comparisons are false, so an
undefined last value falls into the `else` branch (`Bearish`). -/
def maTrendPart (df : Frame) : List (String × String) :=
  match df.getCol "SMA_20", df.getCol "SMA_50" with
  | some s20, some s50 =>
      [("ma_trend", if Val.gtb (Frame.lastV s20) (Frame.lastV s50)
        then "Bullish" else "Bearish")]
  | _, _ => []

/-- The RSI block of `get_trend_analysis`: `Overbought` above 70,
`Oversold` below 30, otherwise (including `NaN`) `Neutral`. -/
def rsiSignalPart (df : Frame) : List (String × String) :=
  match df.getCol "RSI" with
  | some r =>
      let rsi := Frame.lastV r
      [("rsi_signal", if Val.gtb rsi (Val.num 70) then "Overbought"
        else if Val.ltb rsi (Val.num 30) then "Oversold" else "Neutral")]
  | none => []

/-- The MACD block of `get_trend_analysis`. -/
def macdSignalPart (df : Frame) : List (String × String) :=
  match df.getCol "MACD", df.getCol "MACD_Signal" with
  | some m, some s =>
      [("macd_signal", if Val.gtb (Frame.lastV m) (Frame.lastV s)
        then "Bullish" else "Bearish")]
  | _, _ => []

/-- `get_trend_analysis`: read the last row (`df.iloc[-1]` raises an
`IndexError` on a zero-row frame), then build the summary mapping; each
signal is present exactly when its source columns are. -/
def get_trend_analysis (df : Frame) : Except String (List (String × String)) :=
  if df.nRows = 0 then Except.error "single positional indexer is out-of-bounds"
  else Except.ok (maTrendPart df ++ rsiSignalPart df ++ macdSignalPart df)

end TechnicalIndicators

/-! ### Rational images of the primitives, for stating exact values -/

/-- Pointwise differences `x[i+1] − x[i]` (the defined part of `diff`). -/
def diffQ (ys : List ℚ) : List ℚ :=
  match ys with
  | [] => []
  | _ :: tl => List.zipWith (fun a b => a - b) tl ys

/-- The trailing window of size `w` ending at `i`, on rationals. -/
def winAtQ (w : ℕ) (ys : List ℚ) (i : ℕ) : List ℚ :=
  (ys.take (i + 1)).drop (i + 1 - w)

/-- The spec's EMA recurrence, continued from a previous value `a`:
each output is `α·x + (1−α)·previous`. -/
def emaSpecAux (α : ℚ) (a : ℚ) : List ℚ → List ℚ
  | [] => []
  | x :: rest =>
      let y := α * x + (1 - α) * a
      y :: emaSpecAux α y rest

/-- The spec's EMA: seeded with the first observation, then the
recurrence `EMA[i] = α·close[i] + (1−α)·EMA[i−1]`. -/
def emaSpecRec (α : ℚ) : List ℚ → List ℚ
  | [] => []
  | x :: rest => x :: emaSpecAux α x rest

/-- The spec's true range, with the corrected first point: position 0 has
no previous close, and the row-wise maximum skips the two undefined
candidates there, leaving `high − low`. -/
def trueRangeSpec (high low close : List ℚ) : List ℚ :=
  (List.range high.length).map (fun i =>
    if i = 0 then high.getD 0 0 - low.getD 0 0
    else
      max (high.getD i 0 - low.getD i 0)
        (max |high.getD i 0 - close.getD (i - 1) 0| |low.getD i 0 - close.getD (i - 1) 0|))

/-! ### Basic lemmas about `Val` arithmetic -/

namespace Val

@[simp] theorem add_num_num (a b : ℚ) : add (num a) (num b) = num (a + b) := rfl

@[simp] theorem neg_num (a : ℚ) : neg (num a) = num (-a) := rfl

@[simp] theorem sub_num_num (a b : ℚ) : sub (num a) (num b) = num (a - b) := by
  simp [sub, add, sub_eq_add_neg]

@[simp] theorem mul_num_num (a b : ℚ) : mul (num a) (num b) = num (a * b) := rfl

theorem div_num_num (a b : ℚ) (hb : b ≠ 0) : div (num a) (num b) = num (a / b) := by
  simp [div, hb]

@[simp] theorem isNan_num (a : ℚ) : isNan (num a) = false := rfl

@[simp] theorem isNan_nan : isNan nan = true := rfl

@[simp] theorem sub_num_nan (a : ℚ) : sub (num a) nan = nan := rfl

@[simp] theorem sub_nan (v : Val) : sub nan v = nan := by cases v <;> rfl

@[simp] theorem add_num_nan (a : ℚ) : add (num a) nan = nan := rfl

@[simp] theorem div_num_nan (a : ℚ) : div (num a) nan = nan := rfl

@[simp] theorem div_nan (v : Val) : div nan v = nan := by cases v <;> rfl

@[simp] theorem mul_num_nan (a : ℚ) : mul (num a) nan = nan := rfl

@[simp] theorem add_num_pinf (a : ℚ) : add (num a) pinf = pinf := rfl

@[simp] theorem div_num_pinf (a : ℚ) : div (num a) pinf = num 0 := rfl

@[simp] theorem abs_nan : abs nan = nan := rfl

@[simp] theorem abs_num (a : ℚ) : abs (num a) = num |a| := rfl

theorem div_num_zero_pos (a : ℚ) (ha : 0 < a) : div (num a) (num 0) = pinf := by
  simp [div, ha, ne_of_gt ha]

@[simp] theorem div_num_zero_zero : div (num 0) (num 0) = nan := by simp [div]

@[simp] theorem gtb_num_num (a b : ℚ) : gtb (num a) (num b) = decide (b < a) := rfl

@[simp] theorem ltb_num_num (a b : ℚ) : ltb (num a) (num b) = decide (a < b) := rfl

@[simp] theorem gtb_nan_left (v : Val) : gtb nan v = false := by cases v <;> rfl

@[simp] theorem gtb_nan_right (v : Val) : gtb v nan = false := by cases v <;> rfl

@[simp] theorem ltb_nan_left (v : Val) : ltb nan v = false := by cases v <;> rfl

@[simp] theorem ltb_nan_right (v : Val) : ltb v nan = false := by cases v <;> rfl

end Val

/-! ### Generic list access lemmas -/

theorem getD_range_map {α : Type _} (f : ℕ → α) (n i : ℕ) (h : i < n) (d : α) :
    ((List.range n).map f).getD i d = f i := by
  rw [List.getD_eq_getElem _ _ (by simpa using h)]
  simp

theorem getD_zipWith {α : Type _} (f : α → α → α) (a b : List α) (i : ℕ) (d : α)
    (ha : i < a.length) (hb : i < b.length) :
    (List.zipWith f a b).getD i d = f (a.getD i d) (b.getD i d) := by
  induction a generalizing b i with
  | nil => simp at ha
  | cons x xs ih =>
      cases b with
      | nil => simp at hb
      | cons y ys =>
          cases i with
          | zero => simp
          | succ j =>
              simp only [List.zipWith_cons_cons, List.getD_cons_succ]
              exact ih ys j (by simpa using ha) (by simpa using hb)

theorem getD_zipWith3 {α : Type _} (f : α → α → α → α) (a b c : List α) (i : ℕ) (d : α)
    (ha : i < a.length) (hb : i < b.length) (hc : i < c.length) :
    (List.zipWith3 f a b c).getD i d = f (a.getD i d) (b.getD i d) (c.getD i d) := by
  induction a generalizing b c i with
  | nil => simp at ha
  | cons x xs ih =>
      cases b with
      | nil => simp at hb
      | cons y ys =>
          cases c with
          | nil => simp at hc
          | cons z zs =>
              cases i with
              | zero => simp [List.zipWith3]
              | succ j =>
                  simp only [List.zipWith3, List.getD_cons_succ]
                  exact ih ys zs j (by simpa using ha) (by simpa using hb) (by simpa using hc)

theorem getD_map_lt {α β : Type _} (f : α → β) (l : List α) (i : ℕ) (d : β) (d' : α)
    (h : i < l.length) :
    (l.map f).getD i d = f (l.getD i d') := by
  rw [List.getD_eq_getElem _ _ (by simpa using h), List.getD_eq_getElem _ _ h]
  simp

theorem list_ext_getD {α : Type _} (d : α) :
    ∀ (a b : List α), a.length = b.length →
      (∀ i, i < a.length → a.getD i d = b.getD i d) → a = b := by
  intro a
  induction a with
  | nil =>
      intro b hlen _
      cases b with
      | nil => rfl
      | cons y ys => simp at hlen
  | cons x xs ih =>
      intro b hlen hget
      cases b with
      | nil => simp at hlen
      | cons y ys =>
          have h0 := hget 0 (by simp)
          simp only [List.getD_cons_zero] at h0
          have htl : xs = ys := by
            refine ih ys (by simpa using hlen) (fun i hi => ?_)
            have := hget (i + 1) (by simpa using Nat.succ_lt_succ hi)
            simpa using this
          rw [h0, htl]

theorem length_zipWith3 {α β γ δ : Type _} (f : α → β → γ → δ) :
    ∀ (a : List α) (b : List β) (c : List γ),
      (List.zipWith3 f a b c).length = min a.length (min b.length c.length) := by
  intro a
  induction a with
  | nil => intro b c; simp [List.zipWith3]
  | cons x xs ih =>
      intro b c
      cases b with
      | nil => simp [List.zipWith3]
      | cons y ys =>
          cases c with
          | nil => simp [List.zipWith3]
          | cons z zs =>
              simp only [List.zipWith3, List.length_cons, ih]
              omega

/-! ### Lengths of the primitives -/

@[simp] theorem length_rollingMean (w m : ℕ) (xs : List Val) :
    (rollingMean w m xs).length = xs.length := by
  simp [rollingMean]

@[simp] theorem length_rollingMax (w : ℕ) (xs : List Val) :
    (rollingMax w xs).length = xs.length := by
  simp [rollingMax]

@[simp] theorem length_rollingMin (w : ℕ) (xs : List Val) :
    (rollingMin w xs).length = xs.length := by
  simp [rollingMin]

@[simp] theorem length_diffV (xs : List Val) : (diffV xs).length = xs.length := by
  cases xs with
  | nil => rfl
  | cons x tl => simp [diffV]

@[simp] theorem length_shiftV (xs : List Val) : (shiftV xs).length = xs.length := by
  cases xs with
  | nil => rfl
  | cons x tl => simp [shiftV]

@[simp] theorem length_whereGtZero (xs : List Val) :
    (whereGtZero xs).length = xs.length := by
  simp [whereGtZero]

@[simp] theorem length_whereLtZero (xs : List Val) :
    (whereLtZero xs).length = xs.length := by
  simp [whereLtZero]

@[simp] theorem length_ewmRun (α : ℚ) (st : Option Val × ℚ) (xs : List Val) :
    (ewmRun α st xs).length = xs.length := by
  induction xs generalizing st with
  | nil => rfl
  | cons x tl ih => simp [ewmRun, ih]

@[simp] theorem length_emaSpecAux (α a : ℚ) (l : List ℚ) :
    (emaSpecAux α a l).length = l.length := by
  induction l generalizing a with
  | nil => rfl
  | cons x tl ih => simp [emaSpecAux, ih]

@[simp] theorem length_emaSpecRec (α : ℚ) (l : List ℚ) :
    (emaSpecRec α l).length = l.length := by
  cases l <;> simp [emaSpecRec]

/-! ### Structure of the primitives on all-finite input -/

theorem zipWith_sub_map_num (a b : List ℚ) :
    List.zipWith Val.sub (a.map Val.num) (b.map Val.num) =
      (List.zipWith (fun x y => x - y) a b).map Val.num := by
  induction a generalizing b with
  | nil => simp
  | cons x xs ih => cases b <;> simp [ih]

theorem filter_not_isNan_map_num (l : List ℚ) :
    (l.map Val.num).filter (fun v => !v.isNan) = l.map Val.num := by
  induction l with
  | nil => rfl
  | cons x xs ih => simp [ih]

theorem foldr_add_map_num (l : List ℚ) (a : ℚ) :
    (l.map Val.num).foldr Val.add (Val.num a) = Val.num (l.sum + a) := by
  induction l generalizing a with
  | nil => simp
  | cons x xs ih =>
      simp only [List.map_cons, List.foldr_cons, ih, Val.add_num_num, List.sum_cons]
      congr 1
      ring

theorem winAt_map_num (w : ℕ) (l : List ℚ) (i : ℕ) :
    winAt w (l.map Val.num) i = (winAtQ w l i).map Val.num := by
  simp [winAt, winAtQ, List.map_take, List.map_drop]

theorem validAt_map_num (w : ℕ) (l : List ℚ) (i : ℕ) :
    validAt w (l.map Val.num) i = (winAtQ w l i).map Val.num := by
  rw [validAt, winAt_map_num, filter_not_isNan_map_num]

theorem length_winAtQ (w : ℕ) (l : List ℚ) (i : ℕ) (hi : i < l.length) :
    (winAtQ w l i).length = min (i + 1) w := by
  simp [winAtQ]; omega

theorem rollingMean_map_num_getD (w minp : ℕ) (l : List ℚ) (i : ℕ) (hi : i < l.length)
    (hm : minp ≤ (winAtQ w l i).length) (hpos : 0 < (winAtQ w l i).length) :
    (rollingMean w minp (l.map Val.num)).getD i Val.nan =
      Val.num ((winAtQ w l i).sum / (winAtQ w l i).length) := by
  unfold rollingMean
  rw [getD_range_map _ _ _ (by simpa using hi)]
  simp only [validAt_map_num, List.length_map]
  rw [if_neg (by omega), foldr_add_map_num,
    Val.div_num_num _ _ (Nat.cast_ne_zero.mpr (by omega))]
  rw [add_zero]

theorem rollingMean_getD_nan_of_short (w minp : ℕ) (xs : List Val) (i : ℕ)
    (hi : i < xs.length) (hm : (validAt w xs i).length < minp) :
    (rollingMean w minp xs).getD i Val.nan = Val.nan := by
  unfold rollingMean
  rw [getD_range_map _ _ _ (by simpa using hi)]
  simp only [if_pos hm]

/-! ### Claim C4: SMA with partial windows -/

theorem sma_getD_partial (ys : List ℚ) (w : ℕ) (hw : 1 ≤ w) (i : ℕ) (hiw : i + 1 ≤ w)
    (hi : i < ys.length) :
    (TechnicalIndicators.simple_moving_average (ys.map Val.num) w).getD i Val.nan =
      Val.num ((ys.take (i + 1)).sum / ((i : ℚ) + 1)) := by
  have hwin : winAtQ w ys i = ys.take (i + 1) := by
    simp [winAtQ, Nat.sub_eq_zero_of_le hiw]
  have hlen : (winAtQ w ys i).length = i + 1 := by
    rw [length_winAtQ _ _ _ hi]; omega
  rw [TechnicalIndicators.simple_moving_average,
    rollingMean_map_num_getD _ _ _ _ hi (by omega) (by omega), hlen, hwin]
  push_cast
  ring_nf

theorem sma_getD_full (ys : List ℚ) (w : ℕ) (hw : 1 ≤ w) (i : ℕ) (hiw : w ≤ i + 1)
    (hi : i < ys.length) :
    (TechnicalIndicators.simple_moving_average (ys.map Val.num) w).getD i Val.nan =
      Val.num (((ys.drop (i + 1 - w)).take w).sum / (w : ℚ)) := by
  have hwin : winAtQ w ys i = (ys.drop (i + 1 - w)).take w := by
    rw [winAtQ, List.drop_take]
    congr 1
    omega
  have hlen : (winAtQ w ys i).length = w := by
    rw [length_winAtQ _ _ _ hi]; omega
  rw [TechnicalIndicators.simple_moving_average,
    rollingMean_map_num_getD _ _ _ _ hi (by omega) (by omega), hlen, hwin]

/-- C4: for every series of length `L` and window `w ≤ L`, the SMA output
has length `L`, every position is defined, positions `i < w−1` hold the
mean of observations `0..i` (partial windows), and positions `i ≥ w−1`
the mean of the trailing `w` observations. -/
theorem C4_sma_partial_windows (ys : List ℚ) (w : ℕ) (hw : 1 ≤ w) (hwL : w ≤ ys.length) :
    (TechnicalIndicators.simple_moving_average (ys.map Val.num) w).length = ys.length ∧
    (∀ i, i < ys.length → ∃ q,
      (TechnicalIndicators.simple_moving_average (ys.map Val.num) w).getD i Val.nan =
        Val.num q) ∧
    (∀ i, i < w - 1 →
      (TechnicalIndicators.simple_moving_average (ys.map Val.num) w).getD i Val.nan =
        Val.num ((ys.take (i + 1)).sum / ((i : ℚ) + 1))) ∧
    (∀ i, w - 1 ≤ i → i < ys.length →
      (TechnicalIndicators.simple_moving_average (ys.map Val.num) w).getD i Val.nan =
        Val.num (((ys.drop (i + 1 - w)).take w).sum / (w : ℚ))) := by
  refine ⟨by simp [TechnicalIndicators.simple_moving_average], ?_, ?_, ?_⟩
  · intro i hi
    rcases Nat.lt_or_ge i w with hc | hc
    · exact ⟨_, sma_getD_partial ys w hw i (by omega) hi⟩
    · exact ⟨_, sma_getD_full ys w hw i (by omega) hi⟩
  · intro i hi
    exact sma_getD_partial ys w hw i (by omega) (by omega)
  · intro i hi1 hi2
    exact sma_getD_full ys w hw i (by omega) hi2

theorem C4_sma_partial_windows_witness :
    (TechnicalIndicators.simple_moving_average
      (([100, 102, 101, 105, 110, 108, 107, 112, 115, 113] : List ℚ).map Val.num) 3).getD 9
        Val.nan = Val.num (340 / 3) := by
  have h := (C4_sma_partial_windows
    ([100, 102, 101, 105, 110, 108, 107, 112, 115, 113] : List ℚ) 3
    (by norm_num) (by simp)).2.2.2 9 (by norm_num) (by simp)
  rw [h, show ((([100, 102, 101, 105, 110, 108, 107, 112, 115, 113] : List ℚ).drop
    (9 + 1 - 3)).take 3) = [112, 115, 113] from rfl]
  norm_num

/-! ### Claim C3: the EMA recurrence -/

theorem ewmRun_map_num (α : ℚ) :
    ∀ (l : List ℚ) (a : ℚ),
      ewmRun α (some (Val.num a), 1) (l.map Val.num) = (emaSpecAux α a l).map Val.num := by
  intro l
  induction l with
  | nil => intro a; rfl
  | cons x tl ih =>
      intro a
      have hden : (1 * (1 - α) + α : ℚ) = 1 := by ring
      have hstep : ewmStep α (some (Val.num a), 1) (Val.num x) =
          ((some (Val.num (α * x + (1 - α) * a)), 1), Val.num (α * x + (1 - α) * a)) := by
        have h1 : Val.div (Val.num (1 * (1 - α) * a + α * x)) (Val.num (1 * (1 - α) + α)) =
            Val.num (α * x + (1 - α) * a) := by
          rw [hden, Val.div_num_num _ _ one_ne_zero, div_one]
          congr 1
          ring
        simp only [ewmStep, Val.mul_num_num, Val.add_num_num, h1]
      simp only [List.map_cons, ewmRun, hstep, emaSpecAux]
      exact congrArg _ (ih (α * x + (1 - α) * a))

theorem ema_map_num (w : ℕ) (l : List ℚ) :
    TechnicalIndicators.exponential_moving_average (l.map Val.num) w =
      (emaSpecRec (2 / ((w : ℚ) + 1)) l).map Val.num := by
  cases l with
  | nil => rfl
  | cons x tl =>
      simp only [TechnicalIndicators.exponential_moving_average, ewmMean, List.map_cons,
        ewmRun, ewmStep, emaSpecRec]
      exact congrArg _ (ewmRun_map_num _ tl x)

theorem emaSpecRec_getD_zero (α : ℚ) (l : List ℚ) :
    (emaSpecRec α l).getD 0 0 = l.getD 0 0 := by
  cases l <;> rfl

theorem emaSpecAux_getD_succ (α : ℚ) :
    ∀ (l : List ℚ) (a : ℚ) (i : ℕ), i + 1 < l.length →
      (emaSpecAux α a l).getD (i + 1) 0 =
        α * l.getD (i + 1) 0 + (1 - α) * (emaSpecAux α a l).getD i 0 := by
  intro l
  induction l with
  | nil => intro a i h; simp at h
  | cons x tl ih =>
      intro a i h
      cases i with
      | zero =>
          cases tl with
          | nil => simp at h
          | cons z zs => simp [emaSpecAux]
      | succ j =>
          simp only [emaSpecAux, List.getD_cons_succ]
          exact ih (α * x + (1 - α) * a) j (by simpa using h)

theorem emaSpecRec_getD_succ (α : ℚ) (l : List ℚ) (i : ℕ) (h : i + 1 < l.length) :
    (emaSpecRec α l).getD (i + 1) 0 =
      α * l.getD (i + 1) 0 + (1 - α) * (emaSpecRec α l).getD i 0 := by
  cases l with
  | nil => simp at h
  | cons x tl =>
      cases i with
      | zero =>
          cases tl with
          | nil => simp at h
          | cons z zs => simp [emaSpecRec, emaSpecAux]
      | succ j =>
          simp only [emaSpecRec, List.getD_cons_succ]
          exact emaSpecAux_getD_succ α tl x j (by simpa using h)

/-- C3: for every non-empty series and span, the EMA has the input's
length and no undefined prefix, and equals the spec recurrence
`EMA[0] = close[0]`, `EMA[i] = α·close[i] + (1−α)·EMA[i−1]` with
`α = 2/(span+1)`, seeded with the first observation, no bias
adjustment. -/
theorem C3_ema_recurrence (ys : List ℚ) (s : ℕ) (hne : ys ≠ []) :
    (TechnicalIndicators.exponential_moving_average (ys.map Val.num) s).length = ys.length ∧
    TechnicalIndicators.exponential_moving_average (ys.map Val.num) s =
      (emaSpecRec (2 / ((s : ℚ) + 1)) ys).map Val.num ∧
    (emaSpecRec (2 / ((s : ℚ) + 1)) ys).getD 0 0 = ys.getD 0 0 ∧
    (∀ i, i + 1 < ys.length →
      (emaSpecRec (2 / ((s : ℚ) + 1)) ys).getD (i + 1) 0 =
        (2 / ((s : ℚ) + 1)) * ys.getD (i + 1) 0 +
          (1 - 2 / ((s : ℚ) + 1)) * (emaSpecRec (2 / ((s : ℚ) + 1)) ys).getD i 0) := by
  refine ⟨?_, ema_map_num s ys, emaSpecRec_getD_zero _ ys,
    fun i hi => emaSpecRec_getD_succ _ ys i hi⟩
  rw [ema_map_num s ys]
  simp

theorem C3_ema_recurrence_witness :
    TechnicalIndicators.exponential_moving_average (([2, 4] : List ℚ).map Val.num) 3 =
      [Val.num 2, Val.num 3] := by
  have h := (C3_ema_recurrence ([2, 4] : List ℚ) 3 (by simp)).2.1
  rw [h]
  norm_num [emaSpecRec, emaSpecAux]

/-! ### Claim C5: the MACD identities -/

/-- C5: for every input series and parameters, the MACD line is
`EMA(fast) − EMA(slow)`, the signal line is `EMA(MACD line, signal)`, and
at every index the histogram is exactly the MACD line minus the signal
line (an identity on the computed rationals, not an approximation). -/
theorem C5_macd_histogram_identity (ys : List ℚ) (fast slow signal : ℕ) :
    (TechnicalIndicators.macd (ys.map Val.num) fast slow signal).1 =
      List.zipWith Val.sub
        (TechnicalIndicators.exponential_moving_average (ys.map Val.num) fast)
        (TechnicalIndicators.exponential_moving_average (ys.map Val.num) slow) ∧
    (TechnicalIndicators.macd (ys.map Val.num) fast slow signal).2.1 =
      TechnicalIndicators.exponential_moving_average
        (TechnicalIndicators.macd (ys.map Val.num) fast slow signal).1 signal ∧
    (TechnicalIndicators.macd (ys.map Val.num) fast slow signal).2.2 =
      List.zipWith Val.sub
        (TechnicalIndicators.macd (ys.map Val.num) fast slow signal).1
        (TechnicalIndicators.macd (ys.map Val.num) fast slow signal).2.1 ∧
    (∀ i, i < ys.length → ∃ a b c : ℚ,
      (TechnicalIndicators.macd (ys.map Val.num) fast slow signal).1.getD i Val.nan =
        Val.num a ∧
      (TechnicalIndicators.macd (ys.map Val.num) fast slow signal).2.1.getD i Val.nan =
        Val.num b ∧
      (TechnicalIndicators.macd (ys.map Val.num) fast slow signal).2.2.getD i Val.nan =
        Val.num c ∧
      c = a - b) := by
  refine ⟨rfl, rfl, rfl, ?_⟩
  intro i hi
  have hml : (TechnicalIndicators.macd (ys.map Val.num) fast slow signal).1 =
      (List.zipWith (fun a b => a - b) (emaSpecRec (2 / ((fast : ℚ) + 1)) ys)
        (emaSpecRec (2 / ((slow : ℚ) + 1)) ys)).map Val.num := by
    show List.zipWith Val.sub
        (TechnicalIndicators.exponential_moving_average (ys.map Val.num) fast)
        (TechnicalIndicators.exponential_moving_average (ys.map Val.num) slow) = _
    rw [ema_map_num, ema_map_num, zipWith_sub_map_num]
  set mQ := List.zipWith (fun a b => a - b) (emaSpecRec (2 / ((fast : ℚ) + 1)) ys)
    (emaSpecRec (2 / ((slow : ℚ) + 1)) ys) with hmQ
  have hmlen : mQ.length = ys.length := by
    rw [hmQ]
    simp
  have hsl : (TechnicalIndicators.macd (ys.map Val.num) fast slow signal).2.1 =
      (emaSpecRec (2 / ((signal : ℚ) + 1)) mQ).map Val.num := by
    show TechnicalIndicators.exponential_moving_average
        (TechnicalIndicators.macd (ys.map Val.num) fast slow signal).1 signal = _
    rw [hml, ema_map_num]
  set sQ := emaSpecRec (2 / ((signal : ℚ) + 1)) mQ with hsQ
  have hslen : sQ.length = ys.length := by
    rw [hsQ, length_emaSpecRec, hmlen]
  have hh : (TechnicalIndicators.macd (ys.map Val.num) fast slow signal).2.2 =
      (List.zipWith (fun a b => a - b) mQ sQ).map Val.num := by
    show List.zipWith Val.sub
        (TechnicalIndicators.macd (ys.map Val.num) fast slow signal).1
        (TechnicalIndicators.macd (ys.map Val.num) fast slow signal).2.1 = _
    rw [hml, hsl, zipWith_sub_map_num]
  refine ⟨mQ.getD i 0, sQ.getD i 0, mQ.getD i 0 - sQ.getD i 0, ?_, ?_, ?_, rfl⟩
  · rw [hml]
    exact getD_map_lt _ _ _ _ 0 (by omega)
  · rw [hsl]
    exact getD_map_lt _ _ _ _ 0 (by omega)
  · rw [hh, getD_map_lt _ _ _ _ 0 (by simp [hmlen, hslen]; omega),
      getD_zipWith _ _ _ _ _ (by omega) (by omega)]

/-! ### RSI: structure of gain, loss and the RSI map -/

@[simp] theorem length_rsiGain (data : List Val) (w : ℕ) :
    (TechnicalIndicators.rsiGain data w).length = data.length := by
  simp [TechnicalIndicators.rsiGain]

@[simp] theorem length_rsiLoss (data : List Val) (w : ℕ) :
    (TechnicalIndicators.rsiLoss data w).length = data.length := by
  simp [TechnicalIndicators.rsiLoss]

@[simp] theorem length_rsi (data : List Val) (w : ℕ) :
    (TechnicalIndicators.relative_strength_index data w).length = data.length := by
  simp [TechnicalIndicators.relative_strength_index]

theorem mem_of_mem_winAt (w : ℕ) (xs : List Val) (i : ℕ) :
    ∀ v ∈ winAt w xs i, v ∈ xs := by
  intro v hv
  exact ((List.drop_sublist _ _).trans (List.take_sublist _ _)).mem hv

theorem mem_of_mem_validAt (w : ℕ) (xs : List Val) (i : ℕ) :
    ∀ v ∈ validAt w xs i, v ∈ xs := by
  intro v hv
  exact mem_of_mem_winAt w xs i v (List.mem_filter.mp hv).1

theorem foldr_add_nonneg :
    ∀ l : List Val, (∀ v ∈ l, ∃ q, v = Val.num q ∧ 0 ≤ q) →
      ∃ s : ℚ, l.foldr Val.add (Val.num 0) = Val.num s ∧ 0 ≤ s := by
  intro l
  induction l with
  | nil => exact fun _ => ⟨0, rfl, le_refl 0⟩
  | cons x tl ih =>
      intro h
      obtain ⟨s, hs, hs0⟩ := ih (fun v hv => h v (List.mem_cons_of_mem _ hv))
      obtain ⟨q, hq, hq0⟩ := h x (List.mem_cons_self _ _)
      refine ⟨q + s, ?_, by positivity⟩
      simp [hq, hs]

theorem rollingMean_nonneg_getD (w minp : ℕ) (xs : List Val)
    (hx : ∀ v ∈ xs, ∃ q, v = Val.num q ∧ 0 ≤ q) (i : ℕ) :
    (rollingMean w minp xs).getD i Val.nan = Val.nan ∨
      ∃ g, (rollingMean w minp xs).getD i Val.nan = Val.num g ∧ 0 ≤ g := by
  rcases Nat.lt_or_ge i xs.length with hi | hi
  · unfold rollingMean
    rw [getD_range_map _ _ _ hi]
    by_cases hc : (validAt w xs i).length < minp
    · left
      simp [hc]
    · obtain ⟨s, hs, hs0⟩ := foldr_add_nonneg (validAt w xs i)
        (fun v hv => hx v (mem_of_mem_validAt w xs i v hv))
      rcases Nat.eq_zero_or_pos (validAt w xs i).length with h0 | hpos
      · left
        have hnil : validAt w xs i = [] := List.length_eq_zero.mp h0
        rw [if_neg hc, hnil]
        simp
      · right
        refine ⟨s / (validAt w xs i).length, ?_,
          div_nonneg hs0 (by positivity)⟩
        rw [if_neg hc, hs, Val.div_num_num _ _ (Nat.cast_ne_zero.mpr (by omega))]
  · left
    rw [List.getD_eq_default]
    simpa using hi

theorem whereGtZero_diffV_nonneg (ys : List ℚ) :
    ∀ v ∈ whereGtZero (diffV (ys.map Val.num)), ∃ q, v = Val.num q ∧ 0 ≤ q := by
  intro v hv
  rw [whereGtZero, List.mem_map] at hv
  obtain ⟨x, hx, rfl⟩ := hv
  have hx' : x = Val.nan ∨ ∃ d : ℚ, x = Val.num d := by
    cases ys with
    | nil => simp [diffV] at hx
    | cons y tl =>
        rw [List.map_cons, diffV] at hx
        rcases List.mem_cons.mp hx with h | h
        · exact Or.inl h
        · right
          rw [← List.map_cons, zipWith_sub_map_num] at h
          obtain ⟨d, _, hd⟩ := List.mem_map.mp h
          exact ⟨d, hd.symm⟩
  rcases hx' with rfl | ⟨d, rfl⟩
  · exact ⟨0, by simp [Val.gtb], le_refl 0⟩
  · by_cases hd : 0 < d
    · exact ⟨d, by simp [hd], le_of_lt hd⟩
    · exact ⟨0, by simp [hd], le_refl 0⟩

theorem lossInput_diffV_nonneg (ys : List ℚ) :
    ∀ v ∈ (whereLtZero (diffV (ys.map Val.num))).map Val.neg,
      ∃ q, v = Val.num q ∧ 0 ≤ q := by
  intro v hv
  rw [List.mem_map] at hv
  obtain ⟨u, hu, rfl⟩ := hv
  rw [whereLtZero, List.mem_map] at hu
  obtain ⟨x, hx, rfl⟩ := hu
  have hx' : x = Val.nan ∨ ∃ d : ℚ, x = Val.num d := by
    cases ys with
    | nil => simp [diffV] at hx
    | cons y tl =>
        rw [List.map_cons, diffV] at hx
        rcases List.mem_cons.mp hx with h | h
        · exact Or.inl h
        · right
          rw [← List.map_cons, zipWith_sub_map_num] at h
          obtain ⟨d, _, hd⟩ := List.mem_map.mp h
          exact ⟨d, hd.symm⟩
  rcases hx' with rfl | ⟨d, rfl⟩
  · exact ⟨0, by simp [Val.ltb, Val.neg], le_refl 0⟩
  · by_cases hd : d < 0
    · exact ⟨-d, by simp [hd], by linarith⟩
    · exact ⟨0, by simp [hd, Val.neg], le_refl 0⟩

theorem rsiGain_getD_cases (ys : List ℚ) (w i : ℕ) :
    (TechnicalIndicators.rsiGain (ys.map Val.num) w).getD i Val.nan = Val.nan ∨
      ∃ g, (TechnicalIndicators.rsiGain (ys.map Val.num) w).getD i Val.nan = Val.num g ∧
        0 ≤ g :=
  rollingMean_nonneg_getD _ _ _ (whereGtZero_diffV_nonneg ys) i

theorem rsiLoss_getD_cases (ys : List ℚ) (w i : ℕ) :
    (TechnicalIndicators.rsiLoss (ys.map Val.num) w).getD i Val.nan = Val.nan ∨
      ∃ g, (TechnicalIndicators.rsiLoss (ys.map Val.num) w).getD i Val.nan = Val.num g ∧
        0 ≤ g :=
  rollingMean_nonneg_getD _ _ _ (lossInput_diffV_nonneg ys) i

theorem rsi_getD (data : List Val) (w i : ℕ) (hi : i < data.length) :
    (TechnicalIndicators.relative_strength_index data w).getD i Val.nan =
      Val.sub (Val.num 100) (Val.div (Val.num 100) (Val.add (Val.num 1)
        (Val.div ((TechnicalIndicators.rsiGain data w).getD i Val.nan)
          ((TechnicalIndicators.rsiLoss data w).getD i Val.nan)))) := by
  show ((List.zipWith Val.div (TechnicalIndicators.rsiGain data w)
      (TechnicalIndicators.rsiLoss data w)).map
        (fun r => Val.sub (Val.num 100) (Val.div (Val.num 100)
          (Val.add (Val.num 1) r)))).getD i Val.nan = _
  rw [getD_map_lt _ _ _ _ Val.nan (by simp; omega),
    getD_zipWith _ _ _ _ _ (by simp; omega) (by simp; omega)]

/-! ### Claim C2: RSI bounds and edge cases -/

/-- C2: every defined RSI value lies in `[0, 100]`; RSI is exactly 100
where the trailing average loss is 0 and the average gain positive; RSI
is undefined (`NaN`, no exception) where both averages are 0; and on the
flat series `[50,50,50,50,50]` with window 3 the RSI is undefined at
every index. -/
theorem C2_rsi_bounds_and_edges :
    (∀ (ys : List ℚ) (w i : ℕ) (q : ℚ),
      (TechnicalIndicators.relative_strength_index (ys.map Val.num) w).getD i Val.nan =
        Val.num q →
      0 ≤ q ∧ q ≤ 100) ∧
    (∀ (ys : List ℚ) (w i : ℕ) (g : ℚ),
      (TechnicalIndicators.rsiLoss (ys.map Val.num) w).getD i Val.nan = Val.num 0 →
      (TechnicalIndicators.rsiGain (ys.map Val.num) w).getD i Val.nan = Val.num g →
      0 < g →
      (TechnicalIndicators.relative_strength_index (ys.map Val.num) w).getD i Val.nan =
        Val.num 100) ∧
    (∀ (ys : List ℚ) (w i : ℕ),
      (TechnicalIndicators.rsiLoss (ys.map Val.num) w).getD i Val.nan = Val.num 0 →
      (TechnicalIndicators.rsiGain (ys.map Val.num) w).getD i Val.nan = Val.num 0 →
      (TechnicalIndicators.relative_strength_index (ys.map Val.num) w).getD i Val.nan =
        Val.nan) ∧
    TechnicalIndicators.relative_strength_index
      (([50, 50, 50, 50, 50] : List ℚ).map Val.num) 3 =
      [Val.nan, Val.nan, Val.nan, Val.nan, Val.nan] := by
  refine ⟨?_, ?_, ?_, ?_⟩
  · intro ys w i q h
    have hi : i < ys.length := by
      by_contra hcon
      rw [List.getD_eq_default _ _ (by simp; omega)] at h
      exact absurd h (by simp)
    rw [rsi_getD _ _ _ (by simpa using hi)] at h
    rcases rsiGain_getD_cases ys w i with hg | ⟨g, hg, hg0⟩
    · rw [hg] at h
      simp at h
    · rcases rsiLoss_getD_cases ys w i with hl | ⟨lq, hl, hl0⟩
      · rw [hg, hl] at h
        simp at h
      · rw [hg, hl] at h
        by_cases hlz : lq = 0
        · subst hlz
          by_cases hgz : g = 0
          · subst hgz
            simp at h
          · have hgpos : 0 < g := lt_of_le_of_ne hg0 (Ne.symm hgz)
            rw [Val.div_num_zero_pos g hgpos] at h
            simp at h
            constructor <;> simp [← h]
        · have hlpos : 0 < lq := lt_of_le_of_ne hl0 (Ne.symm hlz)
          have ht : 0 ≤ g / lq := div_nonneg hg0 (le_of_lt hlpos)
          have htpos : (0 : ℚ) < 1 + g / lq := by linarith
          rw [Val.div_num_num _ _ (ne_of_gt hlpos), Val.add_num_num,
            Val.div_num_num _ _ (ne_of_gt htpos), Val.sub_num_num] at h
          have hq : 100 - 100 / (1 + g / lq) = q := by
            simpa using h
          have h2 : 100 / (1 + g / lq) ≤ 100 := div_le_self (by norm_num) (by linarith)
          have h3 : 0 < 100 / (1 + g / lq) := div_pos (by norm_num) htpos
          constructor <;> linarith
  · intro ys w i g hl hg hgpos
    have hi : i < ys.length := by
      by_contra hcon
      rw [List.getD_eq_default _ _ (by simp; omega)] at hl
      exact absurd hl (by simp)
    rw [rsi_getD _ _ _ (by simpa using hi), hg, hl, Val.div_num_zero_pos g hgpos]
    simp
  · intro ys w i hl hg
    have hi : i < ys.length := by
      by_contra hcon
      rw [List.getD_eq_default _ _ (by simp; omega)] at hl
      exact absurd hl (by simp)
    rw [rsi_getD _ _ _ (by simpa using hi), hg, hl]
    simp
  · norm_num [TechnicalIndicators.relative_strength_index, TechnicalIndicators.rsiGain,
      TechnicalIndicators.rsiLoss, rollingMean, validAt, winAt, whereGtZero, whereLtZero,
      diffV, List.range_succ, Val.sub, Val.add, Val.neg, Val.div, Val.gtb, Val.ltb,
      Val.isNan, List.filter]

theorem C2_rsi_bounds_and_edges_witness :
    (TechnicalIndicators.relative_strength_index
      (([1, 2, 3, 4] : List ℚ).map Val.num) 3).getD 3 Val.nan = Val.num 100 ∧
    (0 ≤ (100 : ℚ) ∧ (100 : ℚ) ≤ 100) ∧
    (TechnicalIndicators.relative_strength_index
      (([5, 5, 5] : List ℚ).map Val.num) 2).getD 2 Val.nan = Val.nan := by
  have hL : (TechnicalIndicators.rsiLoss (([1, 2, 3, 4] : List ℚ).map Val.num) 3).getD 3
      Val.nan = Val.num 0 := by
    norm_num [TechnicalIndicators.rsiLoss, rollingMean, validAt, winAt, whereLtZero, diffV,
      List.range_succ, Val.sub, Val.add, Val.neg, Val.div, Val.ltb, Val.isNan, List.filter]
  have hG : (TechnicalIndicators.rsiGain (([1, 2, 3, 4] : List ℚ).map Val.num) 3).getD 3
      Val.nan = Val.num 1 := by
    norm_num [TechnicalIndicators.rsiGain, rollingMean, validAt, winAt, whereGtZero, diffV,
      List.range_succ, Val.sub, Val.add, Val.neg, Val.div, Val.gtb, Val.isNan, List.filter]
  have h100 := C2_rsi_bounds_and_edges.2.1 [1, 2, 3, 4] 3 3 1 hL hG (by norm_num)
  refine ⟨h100, C2_rsi_bounds_and_edges.1 [1, 2, 3, 4] 3 3 100 h100, ?_⟩
  have hL2 : (TechnicalIndicators.rsiLoss (([5, 5, 5] : List ℚ).map Val.num) 2).getD 2
      Val.nan = Val.num 0 := by
    norm_num [TechnicalIndicators.rsiLoss, rollingMean, validAt, winAt, whereLtZero, diffV,
      List.range_succ, Val.sub, Val.add, Val.neg, Val.div, Val.ltb, Val.isNan, List.filter]
  have hG2 : (TechnicalIndicators.rsiGain (([5, 5, 5] : List ℚ).map Val.num) 2).getD 2
      Val.nan = Val.num 0 := by
    norm_num [TechnicalIndicators.rsiGain, rollingMean, validAt, winAt, whereGtZero, diffV,
      List.range_succ, Val.sub, Val.add, Val.neg, Val.div, Val.gtb, Val.isNan, List.filter]
  exact C2_rsi_bounds_and_edges.2.2.1 [5, 5, 5] 2 2 hL2 hG2

/-! ### Claim C1: behaviour at division by zero -/

/-- C1 as stated is false: at a division-by-zero point of RSI with zero
average loss and positive average gain, the result is the finite number
100 (the quotient is `+inf` and `100 − 100/(1+inf) = 100`), not an
undefined value.  Witnessed on close series `[1,2,3,4]`, window 3,
index 3. -/
theorem C1_counterexample :
    (TechnicalIndicators.rsiLoss (([1, 2, 3, 4] : List ℚ).map Val.num) 3).getD 3 Val.nan =
      Val.num 0 ∧
    (TechnicalIndicators.relative_strength_index
      (([1, 2, 3, 4] : List ℚ).map Val.num) 3).getD 3 Val.nan = Val.num 100 ∧
    Val.num 100 ≠ Val.nan := by
  refine ⟨?_, ?_, by simp⟩
  · norm_num [TechnicalIndicators.rsiLoss, rollingMean, validAt, winAt, whereLtZero, diffV,
      List.range_succ, Val.sub, Val.add, Val.neg, Val.div, Val.ltb, Val.isNan, List.filter]
  · norm_num [TechnicalIndicators.relative_strength_index, TechnicalIndicators.rsiGain,
      TechnicalIndicators.rsiLoss, rollingMean, validAt, winAt, whereGtZero, whereLtZero,
      diffV, List.range_succ, Val.sub, Val.add, Val.neg, Val.div, Val.gtb, Val.ltb,
      Val.isNan, List.filter]

/-- C1 amended: none of the three functions raises (they are total and
length-preserving); a flat extremum window (`highest_high == lowest_low`,
close equal to them) makes the Stochastic `%K` and Williams `%R`
undefined (`NaN`); RSI with both averages zero is undefined (`NaN`); but
RSI with zero average loss and positive average gain is coerced through
`+inf` to the finite value 100. -/
theorem C1_division_by_zero_policy :
    (∀ (ys : List ℚ) (w : ℕ),
      (TechnicalIndicators.relative_strength_index (ys.map Val.num) w).length =
        ys.length) ∧
    (∀ (ys : List ℚ) (w i : ℕ) (g : ℚ),
      (TechnicalIndicators.rsiLoss (ys.map Val.num) w).getD i Val.nan = Val.num 0 →
      (TechnicalIndicators.rsiGain (ys.map Val.num) w).getD i Val.nan = Val.num g →
      0 < g →
      (TechnicalIndicators.relative_strength_index (ys.map Val.num) w).getD i Val.nan =
        Val.num 100) ∧
    (∀ (ys : List ℚ) (w i : ℕ),
      (TechnicalIndicators.rsiLoss (ys.map Val.num) w).getD i Val.nan = Val.num 0 →
      (TechnicalIndicators.rsiGain (ys.map Val.num) w).getD i Val.nan = Val.num 0 →
      (TechnicalIndicators.relative_strength_index (ys.map Val.num) w).getD i Val.nan =
        Val.nan) ∧
    (∀ (hs ls cs : List ℚ) (kp dp i : ℕ) (v : ℚ),
      (rollingMax kp (hs.map Val.num)).getD i Val.nan = Val.num v →
      (rollingMin kp (ls.map Val.num)).getD i Val.nan = Val.num v →
      i < cs.length → cs.getD i 0 = v →
      ((TechnicalIndicators.stochastic_oscillator (hs.map Val.num) (ls.map Val.num)
        (cs.map Val.num) kp dp).1).getD i Val.nan = Val.nan) ∧
    (∀ (hs ls cs : List ℚ) (p i : ℕ) (v : ℚ),
      (rollingMax p (hs.map Val.num)).getD i Val.nan = Val.num v →
      (rollingMin p (ls.map Val.num)).getD i Val.nan = Val.num v →
      i < cs.length → cs.getD i 0 = v →
      (TechnicalIndicators.williams_r (hs.map Val.num) (ls.map Val.num) (cs.map Val.num)
        p).getD i Val.nan = Val.nan) := by
  refine ⟨fun ys w => by simp, ?_, ?_, ?_, ?_⟩
  · intro ys w i g hl hg hgpos
    have hi : i < ys.length := by
      by_contra hcon
      rw [List.getD_eq_default _ _ (by simp; omega)] at hl
      exact absurd hl (by simp)
    rw [rsi_getD _ _ _ (by simpa using hi), hg, hl, Val.div_num_zero_pos g hgpos]
    simp
  · intro ys w i hl hg
    have hi : i < ys.length := by
      by_contra hcon
      rw [List.getD_eq_default _ _ (by simp; omega)] at hl
      exact absurd hl (by simp)
    rw [rsi_getD _ _ _ (by simpa using hi), hg, hl]
    simp
  · intro hs ls cs kp dp i v hH hL hic hcv
    have hih : i < hs.length := by
      by_contra hcon
      rw [List.getD_eq_default _ _ (by simp; omega)] at hH
      exact absurd hH (by simp)
    have hil : i < ls.length := by
      by_contra hcon
      rw [List.getD_eq_default _ _ (by simp; omega)] at hL
      exact absurd hL (by simp)
    show (List.zipWith3 _ (cs.map Val.num) (rollingMin kp (ls.map Val.num))
      (rollingMax kp (hs.map Val.num))).getD i Val.nan = Val.nan
    rw [getD_zipWith3 _ _ _ _ _ _ (by simpa using hic) (by simpa using hil)
      (by simpa using hih)]
    rw [getD_map_lt _ _ _ _ 0 hic, hcv, hH, hL]
    simp
  · intro hs ls cs p i v hH hL hic hcv
    have hih : i < hs.length := by
      by_contra hcon
      rw [List.getD_eq_default _ _ (by simp; omega)] at hH
      exact absurd hH (by simp)
    have hil : i < ls.length := by
      by_contra hcon
      rw [List.getD_eq_default _ _ (by simp; omega)] at hL
      exact absurd hL (by simp)
    show (List.zipWith3 _ (rollingMax p (hs.map Val.num)) (rollingMin p (ls.map Val.num))
      (cs.map Val.num)).getD i Val.nan = Val.nan
    rw [getD_zipWith3 _ _ _ _ _ _ (by simpa using hih) (by simpa using hil)
      (by simpa using hic)]
    rw [getD_map_lt _ _ _ _ 0 hic, hcv, hH, hL]
    simp

theorem C1_division_by_zero_policy_witness :
    (TechnicalIndicators.relative_strength_index
      (([1, 2, 3, 4] : List ℚ).map Val.num) 3).getD 3 Val.nan = Val.num 100 ∧
    ((TechnicalIndicators.stochastic_oscillator (([5, 5] : List ℚ).map Val.num)
      (([5, 5] : List ℚ).map Val.num) (([5, 5] : List ℚ).map Val.num) 2 3).1).getD 1
        Val.nan = Val.nan ∧
    (TechnicalIndicators.williams_r (([5, 5] : List ℚ).map Val.num)
      (([5, 5] : List ℚ).map Val.num) (([5, 5] : List ℚ).map Val.num) 2).getD 1
        Val.nan = Val.nan := by
  have hmax : (rollingMax 2 (([5, 5] : List ℚ).map Val.num)).getD 1 Val.nan =
      Val.num 5 := by
    norm_num [rollingMax, validAt, winAt, maxStep, Val.ltb, Val.isNan, List.range_succ,
      List.filter]
  have hmin : (rollingMin 2 (([5, 5] : List ℚ).map Val.num)).getD 1 Val.nan =
      Val.num 5 := by
    norm_num [rollingMin, validAt, winAt, minStep, Val.gtb, Val.ltb, Val.isNan,
      List.range_succ, List.filter]
  have hL : (TechnicalIndicators.rsiLoss (([1, 2, 3, 4] : List ℚ).map Val.num) 3).getD 3
      Val.nan = Val.num 0 := by
    norm_num [TechnicalIndicators.rsiLoss, rollingMean, validAt, winAt, whereLtZero, diffV,
      List.range_succ, Val.sub, Val.add, Val.neg, Val.div, Val.ltb, Val.isNan, List.filter]
  have hG : (TechnicalIndicators.rsiGain (([1, 2, 3, 4] : List ℚ).map Val.num) 3).getD 3
      Val.nan = Val.num 1 := by
    norm_num [TechnicalIndicators.rsiGain, rollingMean, validAt, winAt, whereGtZero, diffV,
      List.range_succ, Val.sub, Val.add, Val.neg, Val.div, Val.gtb, Val.isNan, List.filter]
  exact ⟨C1_division_by_zero_policy.2.1 [1, 2, 3, 4] 3 3 1 hL hG (by norm_num),
    C1_division_by_zero_policy.2.2.2.1 [5, 5] [5, 5] [5, 5] 2 3 1 5 hmax hmin
      (by norm_num) rfl,
    C1_division_by_zero_policy.2.2.2.2 [5, 5] [5, 5] [5, 5] 2 1 5 hmax hmin
      (by norm_num) rfl⟩

theorem C5_macd_histogram_identity_witness :
    ∃ a b c : ℚ,
      (TechnicalIndicators.macd (([3, 5] : List ℚ).map Val.num) 12 26 9).1.getD 0 Val.nan =
        Val.num a ∧
      (TechnicalIndicators.macd (([3, 5] : List ℚ).map Val.num) 12 26 9).2.1.getD 0
        Val.nan = Val.num b ∧
      (TechnicalIndicators.macd (([3, 5] : List ℚ).map Val.num) 12 26 9).2.2.getD 0
        Val.nan = Val.num c ∧
      c = a - b :=
  (C5_macd_histogram_identity [3, 5] 12 26 9).2.2.2 0 (by norm_num)

/-! ### Claim C6: ATR true range and undefined prefix -/

theorem maxStep_num_nan (a : ℚ) : maxStep (Val.num a) Val.nan = Val.num a := rfl

theorem maxStep_num_num (a b : ℚ) :
    maxStep (Val.num a) (Val.num b) = Val.num (max a b) := by
  simp only [maxStep, Val.ltb_num_num]
  by_cases h : a < b
  · simp [h, max_eq_right (le_of_lt h)]
  · simp [h, max_eq_left (le_of_not_lt h)]

theorem rowMax3_num_nan_nan (a : ℚ) :
    TechnicalIndicators.rowMax3 (Val.num a) Val.nan Val.nan = Val.num a := rfl

theorem rowMax3_num_num_num (a b c : ℚ) :
    TechnicalIndicators.rowMax3 (Val.num a) (Val.num b) (Val.num c) =
      Val.num (max a (max b c)) := by
  show ((([Val.num a, Val.num b, Val.num c]).filter
    (fun v => !v.isNan)).foldr maxStep Val.nan) = _
  rw [show ([Val.num a, Val.num b, Val.num c]).filter (fun v => !v.isNan) =
    [Val.num a, Val.num b, Val.num c] from rfl]
  show maxStep (Val.num a) (maxStep (Val.num b) (maxStep (Val.num c) Val.nan)) = _
  rw [maxStep_num_nan, maxStep_num_num, maxStep_num_num]

theorem shiftV_getD_succ (xs : List Val) (j : ℕ) (hj : j + 1 < xs.length) :
    (shiftV xs).getD (j + 1) Val.nan = xs.getD j Val.nan := by
  cases xs with
  | nil => simp at hj
  | cons x tl =>
      show (Val.nan :: (x :: tl).dropLast).getD (j + 1) Val.nan = _
      rw [List.getD_cons_succ]
      have h1 : j < (x :: tl).dropLast.length := by
        simp only [List.length_dropLast, List.length_cons] at *
        omega
      rw [List.getD_eq_getElem _ _ h1, List.getD_eq_getElem _ _ (by omega)]
      exact List.getElem_dropLast _ _ h1

@[simp] theorem length_trueRangeSpec (hs ls cs : List ℚ) :
    (trueRangeSpec hs ls cs).length = hs.length := by
  simp [trueRangeSpec]

theorem trueRange_map_num (hs ls cs : List ℚ)
    (hl : ls.length = hs.length) (hc : cs.length = hs.length) :
    List.zipWith3 TechnicalIndicators.rowMax3
      (List.zipWith Val.sub (hs.map Val.num) (ls.map Val.num))
      (List.zipWith (fun h pc => Val.abs (Val.sub h pc)) (hs.map Val.num)
        (shiftV (cs.map Val.num)))
      (List.zipWith (fun l pc => Val.abs (Val.sub l pc)) (ls.map Val.num)
        (shiftV (cs.map Val.num))) =
      (trueRangeSpec hs ls cs).map Val.num := by
  apply list_ext_getD Val.nan
  · simp [length_zipWith3, hl, hc]
  · intro i hi
    have hih : i < hs.length := by
      simpa [length_zipWith3, hl, hc] using hi
    rw [getD_zipWith3 _ _ _ _ _ _ (by simp [hl, hc]; omega) (by simp [hl, hc]; omega)
      (by simp [hl, hc]; omega)]
    rw [getD_zipWith _ _ _ _ _ (by simpa using hih) (by simp; omega),
      getD_zipWith _ _ _ _ _ (by simpa using hih) (by simp [hc]; omega),
      getD_zipWith _ _ _ _ _ (by simp [hl]; omega) (by simp [hc]; omega)]
    rw [getD_map_lt _ _ _ _ 0 hih, getD_map_lt _ _ _ _ 0 (by omega),
      getD_map_lt Val.num (trueRangeSpec hs ls cs) _ _ 0 (by simp [hih])]
    rw [trueRangeSpec, getD_range_map _ _ _ hih]
    cases i with
    | zero =>
        have hcne : cs.map Val.num ≠ [] := by
          intro hcon
          rw [List.map_eq_nil_iff] at hcon
          subst hcon
          simp at hc
          omega
        have h0 : (shiftV (cs.map Val.num)).getD 0 Val.nan = Val.nan := by
          cases hx : cs.map Val.num with
          | nil => exact absurd hx hcne
          | cons y tl => rfl
        rw [h0]
        simp only [Val.sub_num_num, Val.sub_num_nan, Val.abs_nan, rowMax3_num_nan_nan]
        simp
    | succ j =>
        rw [shiftV_getD_succ _ _ (by simp [hc]; omega), getD_map_lt _ _ _ _ 0 (by omega)]
        simp only [Val.sub_num_num, Val.abs_num, rowMax3_num_num_num,
          Nat.succ_ne_zero, if_false]
        simp

theorem atr_eq_rollingMean_trueRangeSpec (hs ls cs : List ℚ) (p : ℕ)
    (hl : ls.length = hs.length) (hc : cs.length = hs.length) :
    TechnicalIndicators.average_true_range (hs.map Val.num) (ls.map Val.num)
      (cs.map Val.num) p =
      rollingMean p p ((trueRangeSpec hs ls cs).map Val.num) := by
  show rollingMean p p (List.zipWith3 TechnicalIndicators.rowMax3 _ _ _) = _
  rw [trueRange_map_num hs ls cs hl hc]

/-- C6 as stated is false: ATR is already defined at index `p − 1`.  The
first true range degrades to `high − low` because the row-wise maximum
skips the undefined `|high − prev_close|` and `|low − prev_close|`
candidates, so position 0 contributes a defined value to the rolling
mean.  Witnessed with `high=[2,3]`, `low=[1,1]`, `close=[1,2]`,
`period=2`: the claim says ATR is undefined at every index `< 2`, but
`ATR[1] = (1 + 2)/2 = 3/2`. -/
theorem C6_counterexample :
    (TechnicalIndicators.average_true_range (([2, 3] : List ℚ).map Val.num)
      (([1, 1] : List ℚ).map Val.num) (([1, 2] : List ℚ).map Val.num) 2).getD 1 Val.nan =
      Val.num (3 / 2) ∧ Val.num (3 / 2) ≠ Val.nan ∧ (1 : ℕ) < 2 := by
  refine ⟨?_, by simp, by norm_num⟩
  norm_num [TechnicalIndicators.average_true_range, TechnicalIndicators.rowMax3,
    rollingMean, validAt, winAt, shiftV, maxStep, Val.sub, Val.add, Val.neg, Val.abs,
    Val.div, Val.ltb, Val.isNan, List.range_succ, List.filter, List.zipWith3]

/-- C6 amended: ATR is the rolling mean over `p` of the true range
`max(high−low, |high−prev_close|, |low−prev_close|)`, where position 0
(which has no previous close) contributes `high−low` (the row-wise
maximum skips the undefined candidates); consequently the undefined
prefix is only the first `p−1` positions and ATR is defined from index
`p−1` onward. -/
theorem C6_atr_undefined_head (hs ls cs : List ℚ) (p : ℕ) (hp : 1 ≤ p)
    (hl : ls.length = hs.length) (hc : cs.length = hs.length) (hpl : p ≤ hs.length) :
    (TechnicalIndicators.average_true_range (hs.map Val.num) (ls.map Val.num)
      (cs.map Val.num) p).length = hs.length ∧
    TechnicalIndicators.average_true_range (hs.map Val.num) (ls.map Val.num)
      (cs.map Val.num) p =
      rollingMean p p ((trueRangeSpec hs ls cs).map Val.num) ∧
    (∀ i, i < p - 1 →
      (TechnicalIndicators.average_true_range (hs.map Val.num) (ls.map Val.num)
        (cs.map Val.num) p).getD i Val.nan = Val.nan) ∧
    (∀ i, p - 1 ≤ i → i < hs.length → ∃ q,
      (TechnicalIndicators.average_true_range (hs.map Val.num) (ls.map Val.num)
        (cs.map Val.num) p).getD i Val.nan = Val.num q ∧
      q = (((trueRangeSpec hs ls cs).drop (i + 1 - p)).take p).sum / (p : ℚ)) := by
  have heq := atr_eq_rollingMean_trueRangeSpec hs ls cs p hl hc
  refine ⟨by rw [heq]; simp, heq, ?_, ?_⟩
  · intro i hi
    rw [heq]
    apply rollingMean_getD_nan_of_short
    · simp
      omega
    · rw [validAt_map_num, List.length_map, length_winAtQ _ _ _ (by simp; omega)]
      omega
  · intro i hi1 hi2
    have hwin : winAtQ p (trueRangeSpec hs ls cs) i =
        ((trueRangeSpec hs ls cs).drop (i + 1 - p)).take p := by
      rw [winAtQ, List.drop_take]
      congr 1
      omega
    have hlen : (winAtQ p (trueRangeSpec hs ls cs) i).length = p := by
      rw [length_winAtQ _ _ _ (by simp; omega)]
      omega
    rw [heq, rollingMean_map_num_getD _ _ _ _ (by simp; omega) (by omega) (by omega),
      hlen, hwin]
    exact ⟨_, rfl, rfl⟩

theorem C6_atr_undefined_head_witness :
    ∃ q, (TechnicalIndicators.average_true_range (([2, 3] : List ℚ).map Val.num)
      (([1, 1] : List ℚ).map Val.num) (([1, 2] : List ℚ).map Val.num) 2).getD 1 Val.nan =
        Val.num q ∧
      q = (((trueRangeSpec [2, 3] [1, 1] [1, 2]).drop (1 + 1 - 2)).take 2).sum / (2 : ℚ) :=
  (C6_atr_undefined_head [2, 3] [1, 1] [1, 2] 2 (by norm_num) (by simp) (by simp)
    (by simp)).2.2.2 1 (by norm_num) (by simp)

/-! ### Claim C7: trend classifier thresholds -/

/-- C7: with all five columns present and their last-row values defined,
the classifier reports MA trend `Bullish` iff `SMA_20 > SMA_50` strictly
(equality is `Bearish`), RSI `Overbought` iff `RSI > 70` strictly,
`Oversold` iff `RSI < 30` strictly, `Neutral` otherwise, and MACD
`Bullish` iff the MACD line strictly exceeds the signal line. -/
theorem C7_trend_classifier (df : Frame) (s20 s50 r m s : List Val) (a b rv mv sv : ℚ)
    (h20 : df.getCol "SMA_20" = some s20) (h50 : df.getCol "SMA_50" = some s50)
    (hr : df.getCol "RSI" = some r)
    (hm : df.getCol "MACD" = some m) (hs : df.getCol "MACD_Signal" = some s)
    (hrows : df.nRows ≠ 0)
    (hlast20 : Frame.lastV s20 = Val.num a) (hlast50 : Frame.lastV s50 = Val.num b)
    (hlastr : Frame.lastV r = Val.num rv)
    (hlastm : Frame.lastV m = Val.num mv) (hlasts : Frame.lastV s = Val.num sv) :
    TechnicalIndicators.get_trend_analysis df = Except.ok
      [("ma_trend", if b < a then "Bullish" else "Bearish"),
       ("rsi_signal", if 70 < rv then "Overbought"
         else if rv < 30 then "Oversold" else "Neutral"),
       ("macd_signal", if sv < mv then "Bullish" else "Bearish")] := by
  rw [TechnicalIndicators.get_trend_analysis, if_neg hrows]
  simp only [TechnicalIndicators.maTrendPart, TechnicalIndicators.rsiSignalPart,
    TechnicalIndicators.macdSignalPart, h20, h50, hr, hm, hs, hlast20, hlast50, hlastr,
    hlastm, hlasts, Val.gtb_num_num, Val.ltb_num_num, decide_eq_true_eq]
  simp

theorem C7_trend_classifier_witness :
    TechnicalIndicators.get_trend_analysis
      ⟨[("SMA_20", [Val.num 5]), ("SMA_50", [Val.num 5]), ("RSI", [Val.num 70]),
        ("MACD", [Val.num 1]), ("MACD_Signal", [Val.num 0])]⟩ =
      Except.ok [("ma_trend", "Bearish"), ("rsi_signal", "Neutral"),
        ("macd_signal", "Bullish")] := by
  have h := C7_trend_classifier
    ⟨[("SMA_20", [Val.num 5]), ("SMA_50", [Val.num 5]), ("RSI", [Val.num 70]),
      ("MACD", [Val.num 1]), ("MACD_Signal", [Val.num 0])]⟩
    [Val.num 5] [Val.num 5] [Val.num 70] [Val.num 1] [Val.num 0]
    5 5 70 1 0 rfl rfl rfl rfl rfl (by simp [Frame.nRows]) rfl rfl rfl rfl rfl
  rw [h]
  norm_num

/-! ### Claim C8: classifier behaviour on empty, partial and NaN input -/

/-- C8 as stated is false in two ways.  A zero-row frame raises
(`df.iloc[-1]` is an `IndexError`), it does not return an empty summary;
and an undefined (`NaN`) value in the last row is not omitted: `NaN`
comparisons are false, so the RSI signal is labelled `Neutral`. -/
theorem C8_counterexample :
    TechnicalIndicators.get_trend_analysis ⟨[("RSI", ([] : List Val))]⟩ =
      Except.error "single positional indexer is out-of-bounds" ∧
    TechnicalIndicators.get_trend_analysis ⟨[("RSI", [Val.nan])]⟩ =
      Except.ok [("rsi_signal", "Neutral")] := ⟨rfl, rfl⟩

/-- C8 amended: the classifier raises exactly on a zero-row frame; with
at least one row, a signal whose source columns are absent is omitted
from the summary (no error), but an undefined (`NaN`) value in the last
row is not treated as insufficient data: the MA and MACD signals are
labelled `Bearish` and the RSI signal `Neutral`. -/
theorem C8_classifier_totality :
    (∀ df : Frame, df.nRows = 0 →
      TechnicalIndicators.get_trend_analysis df =
        Except.error "single positional indexer is out-of-bounds") ∧
    (∀ df : Frame, df.nRows ≠ 0 →
      TechnicalIndicators.get_trend_analysis df =
        Except.ok (TechnicalIndicators.maTrendPart df ++
          TechnicalIndicators.rsiSignalPart df ++ TechnicalIndicators.macdSignalPart df) ∧
      (((df.getCol "SMA_20").isNone ∨ (df.getCol "SMA_50").isNone) →
        (TechnicalIndicators.maTrendPart df ++ TechnicalIndicators.rsiSignalPart df ++
          TechnicalIndicators.macdSignalPart df).lookup "ma_trend" = none) ∧
      ((df.getCol "RSI").isNone →
        (TechnicalIndicators.maTrendPart df ++ TechnicalIndicators.rsiSignalPart df ++
          TechnicalIndicators.macdSignalPart df).lookup "rsi_signal" = none) ∧
      (((df.getCol "MACD").isNone ∨ (df.getCol "MACD_Signal").isNone) →
        (TechnicalIndicators.maTrendPart df ++ TechnicalIndicators.rsiSignalPart df ++
          TechnicalIndicators.macdSignalPart df).lookup "macd_signal" = none) ∧
      (∀ s20 s50, df.getCol "SMA_20" = some s20 → df.getCol "SMA_50" = some s50 →
        Frame.lastV s20 = Val.nan →
        (TechnicalIndicators.maTrendPart df ++ TechnicalIndicators.rsiSignalPart df ++
          TechnicalIndicators.macdSignalPart df).lookup "ma_trend" = some "Bearish") ∧
      (∀ r, df.getCol "RSI" = some r → Frame.lastV r = Val.nan →
        (TechnicalIndicators.maTrendPart df ++ TechnicalIndicators.rsiSignalPart df ++
          TechnicalIndicators.macdSignalPart df).lookup "rsi_signal" = some "Neutral") ∧
      (∀ m s, df.getCol "MACD" = some m → df.getCol "MACD_Signal" = some s →
        Frame.lastV m = Val.nan →
        (TechnicalIndicators.maTrendPart df ++ TechnicalIndicators.rsiSignalPart df ++
          TechnicalIndicators.macdSignalPart df).lookup "macd_signal" = some "Bearish")) := by
  have hma : ∀ df : Frame, TechnicalIndicators.maTrendPart df = [] ∨
      ∃ v, TechnicalIndicators.maTrendPart df = [("ma_trend", v)] := by
    intro df
    rw [TechnicalIndicators.maTrendPart]
    rcases df.getCol "SMA_20" with _ | s20 <;> rcases df.getCol "SMA_50" with _ | s50
    · exact Or.inl rfl
    · exact Or.inl rfl
    · exact Or.inl rfl
    · exact Or.inr ⟨_, rfl⟩
  have hrsi : ∀ df : Frame, TechnicalIndicators.rsiSignalPart df = [] ∨
      ∃ v, TechnicalIndicators.rsiSignalPart df = [("rsi_signal", v)] := by
    intro df
    rw [TechnicalIndicators.rsiSignalPart]
    rcases df.getCol "RSI" with _ | r
    · exact Or.inl rfl
    · exact Or.inr ⟨_, rfl⟩
  have hmacd : ∀ df : Frame, TechnicalIndicators.macdSignalPart df = [] ∨
      ∃ v, TechnicalIndicators.macdSignalPart df = [("macd_signal", v)] := by
    intro df
    rw [TechnicalIndicators.macdSignalPart]
    rcases df.getCol "MACD" with _ | m <;> rcases df.getCol "MACD_Signal" with _ | s
    · exact Or.inl rfl
    · exact Or.inl rfl
    · exact Or.inl rfl
    · exact Or.inr ⟨_, rfl⟩
  refine ⟨fun df h => by rw [TechnicalIndicators.get_trend_analysis, if_pos h], ?_⟩
  intro df h
  refine ⟨by rw [TechnicalIndicators.get_trend_analysis, if_neg h], ?_, ?_, ?_, ?_, ?_, ?_⟩
  · intro habs
    have h1 : TechnicalIndicators.maTrendPart df = [] := by
      rw [TechnicalIndicators.maTrendPart]
      rcases habs with habs | habs <;> rw [Option.isNone_iff_eq_none] at habs <;>
        rw [habs] <;> cases hx : df.getCol "SMA_20" <;>
        cases hy : df.getCol "SMA_50" <;> rfl
    rw [h1]
    rcases hrsi df with h2 | ⟨v, h2⟩ <;> rcases hmacd df with h3 | ⟨u, h3⟩ <;>
      simp [h2, h3, List.lookup]
  · intro habs
    rw [Option.isNone_iff_eq_none] at habs
    have h2 : TechnicalIndicators.rsiSignalPart df = [] := by
      rw [TechnicalIndicators.rsiSignalPart, habs]
    rw [h2]
    rcases hma df with h1 | ⟨v, h1⟩ <;> rcases hmacd df with h3 | ⟨u, h3⟩ <;>
      simp [h1, h3, List.lookup]
  · intro habs
    have h3 : TechnicalIndicators.macdSignalPart df = [] := by
      rw [TechnicalIndicators.macdSignalPart]
      rcases habs with habs | habs <;> rw [Option.isNone_iff_eq_none] at habs <;>
        rw [habs] <;> cases hx : df.getCol "MACD" <;>
        cases hy : df.getCol "MACD_Signal" <;> rfl
    rw [h3]
    rcases hma df with h1 | ⟨v, h1⟩ <;> rcases hrsi df with h2 | ⟨u, h2⟩ <;>
      simp [h1, h2, List.lookup]
  · intro s20 s50 h20 h50 hnan
    have h1 : TechnicalIndicators.maTrendPart df = [("ma_trend", "Bearish")] := by
      simp only [TechnicalIndicators.maTrendPart, h20, h50]
      rw [hnan]
      simp
    rw [h1]
    simp [List.lookup]
  · intro r hrcol hnan
    have h2 : TechnicalIndicators.rsiSignalPart df = [("rsi_signal", "Neutral")] := by
      simp only [TechnicalIndicators.rsiSignalPart, hrcol]
      rw [hnan]
      simp
    rw [h2]
    rcases hma df with h1 | ⟨v, h1⟩ <;> simp [h1, List.lookup]
  · intro m s hmcol hscol hnan
    have h3 : TechnicalIndicators.macdSignalPart df = [("macd_signal", "Bearish")] := by
      simp only [TechnicalIndicators.macdSignalPart, hmcol, hscol]
      rw [hnan]
      simp
    rw [h3]
    rcases hma df with h1 | ⟨v, h1⟩ <;> rcases hrsi df with h2 | ⟨u, h2⟩ <;>
      simp [h1, h2, List.lookup]

theorem C8_classifier_totality_witness :
    TechnicalIndicators.get_trend_analysis ⟨[]⟩ =
      Except.error "single positional indexer is out-of-bounds" ∧
    TechnicalIndicators.get_trend_analysis ⟨[("MACD", [Val.nan]), ("MACD_Signal",
      [Val.num 1])]⟩ = Except.ok [("macd_signal", "Bearish")] ∧
    (TechnicalIndicators.maTrendPart ⟨[("MACD", [Val.nan]), ("MACD_Signal",
      [Val.num 1])]⟩ ++ TechnicalIndicators.rsiSignalPart ⟨[("MACD", [Val.nan]),
      ("MACD_Signal", [Val.num 1])]⟩ ++ TechnicalIndicators.macdSignalPart
      ⟨[("MACD", [Val.nan]), ("MACD_Signal", [Val.num 1])]⟩).lookup "macd_signal" =
      some "Bearish" := by
  have h1 := C8_classifier_totality.1 ⟨[]⟩ rfl
  have h2 := (C8_classifier_totality.2 ⟨[("MACD", [Val.nan]), ("MACD_Signal",
    [Val.num 1])]⟩ (by simp [Frame.nRows]))
  refine ⟨h1, ?_, h2.2.2.2.2.2.2 [Val.nan] [Val.num 1] rfl rfl rfl⟩
  rw [h2.1]
  rfl

/-! ### Claim C9: pipeline validation errors -/

/-- C9 as stated is false: the pipeline raises only on a missing price
column.  A zero-row series that does have a `close` column is not
rejected — the pipeline proceeds and returns an (empty-column) frame
instead of failing fast. -/
theorem C9_counterexample :
    TechnicalIndicators.calculate_all_indicators ⟨[("close", ([] : List Val))]⟩ ["SMA_20"] =
      Except.ok ⟨[("close", ([] : List Val)), ("open", ([] : List Val)),
        ("high", ([] : List Val)), ("low", ([] : List Val)),
        ("SMA_20", ([] : List Val))]⟩ := rfl

/-- C9 amended: the pipeline raises its descriptive `ValueError` exactly
when neither a `close` nor a `price` column is present; every frame with
a price column — including one with zero rows — is processed without
raising. -/
theorem C9_validation_policy :
    (∀ (df : Frame) (sel : List String),
      df.getCol "close" = none → df.getCol "price" = none →
      TechnicalIndicators.calculate_all_indicators df sel =
        Except.error "DataFrame must contain 'close' or 'price' column") ∧
    (∀ (df : Frame) (sel : List String),
      (df.getCol "close").isSome ∨ (df.getCol "price").isSome →
      ∃ r, TechnicalIndicators.calculate_all_indicators df sel = Except.ok r) := by
  constructor
  · intro df sel hc hp
    rw [TechnicalIndicators.calculate_all_indicators, TechnicalIndicators.normalizeClose,
      if_neg (by simp [hc]), hp]
  · intro df sel h
    rw [TechnicalIndicators.calculate_all_indicators, TechnicalIndicators.normalizeClose]
    by_cases hc : (df.getCol "close").isSome
    · rw [if_pos hc]
      exact ⟨_, rfl⟩
    · rcases h with h | h
      · exact absurd h hc
      · rw [Option.isSome_iff_exists] at h
        obtain ⟨p, hp⟩ := h
        rw [if_neg hc, hp]
        exact ⟨_, rfl⟩

theorem C9_validation_policy_witness :
    TechnicalIndicators.calculate_all_indicators ⟨[("volume", [Val.num 1])]⟩ ["RSI"] =
      Except.error "DataFrame must contain 'close' or 'price' column" ∧
    ∃ r, TechnicalIndicators.calculate_all_indicators ⟨[("close", ([] : List Val))]⟩
      ["SMA_20"] = Except.ok r :=
  ⟨C9_validation_policy.1 ⟨[("volume", [Val.num 1])]⟩ ["RSI"] rfl rfl,
    C9_validation_policy.2 ⟨[("close", ([] : List Val))]⟩ ["SMA_20"] (Or.inl rfl)⟩

/-! ### Claim C10: unknown indicator names are ignored -/

theorem addIndicator_unknown (df : Frame) (name : String)
    (hname : name ∉ ["SMA_20", "SMA_50", "EMA_12", "EMA_26", "RSI", "MACD",
      "Bollinger_Bands", "Stochastic", "Williams_R", "ATR"]) :
    TechnicalIndicators.addIndicator df name = df := by
  simp only [List.mem_cons, List.mem_singleton, not_or] at hname
  obtain ⟨h1, h2, h3, h4, h5, h6, h7, h8, h9, h10⟩ := hname
  rw [TechnicalIndicators.addIndicator]
  simp [h1, h2, h3, h4, h5, h6, h7, h8, h9, h10]

/-- C10: a selection list containing a name outside the pipeline's
vocabulary (e.g. `"FOO"`) produces exactly the same result — the same
`AugmentedSeries`, no error, no extra column — as the list with that
name omitted; and on a frame with a price column both runs succeed. -/
theorem C10_unknown_indicator_ignored (df : Frame) (pre post : List String) (name : String)
    (hname : name ∉ ["SMA_20", "SMA_50", "EMA_12", "EMA_26", "RSI", "MACD",
      "Bollinger_Bands", "Stochastic", "Williams_R", "ATR"]) :
    TechnicalIndicators.calculate_all_indicators df (pre ++ name :: post) =
      TechnicalIndicators.calculate_all_indicators df (pre ++ post) ∧
    ((df.getCol "close").isSome →
      ∃ r, TechnicalIndicators.calculate_all_indicators df (pre ++ name :: post) =
          Except.ok r ∧
        TechnicalIndicators.calculate_all_indicators df (pre ++ post) = Except.ok r) := by
  have key : ∀ base : Frame,
      (pre ++ name :: post).foldl TechnicalIndicators.addIndicator base =
        (pre ++ post).foldl TechnicalIndicators.addIndicator base := by
    intro base
    rw [List.foldl_append, List.foldl_append, List.foldl_cons,
      addIndicator_unknown _ name hname]
  constructor
  · rw [TechnicalIndicators.calculate_all_indicators,
      TechnicalIndicators.calculate_all_indicators]
    cases TechnicalIndicators.normalizeClose df with
    | error e => rfl
    | ok r1 => simp only [key]
  · intro hc
    rw [TechnicalIndicators.calculate_all_indicators,
      TechnicalIndicators.calculate_all_indicators, TechnicalIndicators.normalizeClose,
      if_pos hc]
    simp only [key]
    exact ⟨_, rfl, rfl⟩

theorem C10_unknown_indicator_ignored_witness :
    TechnicalIndicators.calculate_all_indicators ⟨[("close", [Val.num 1, Val.num 2])]⟩
      (["SMA_20"] ++ "FOO" :: []) =
      TechnicalIndicators.calculate_all_indicators ⟨[("close", [Val.num 1, Val.num 2])]⟩
        (["SMA_20"] ++ []) ∧
    ∃ r, TechnicalIndicators.calculate_all_indicators
        ⟨[("close", [Val.num 1, Val.num 2])]⟩ (["SMA_20"] ++ "FOO" :: []) =
          Except.ok r ∧
      TechnicalIndicators.calculate_all_indicators ⟨[("close", [Val.num 1, Val.num 2])]⟩
        (["SMA_20"] ++ []) = Except.ok r := by
  have h := C10_unknown_indicator_ignored ⟨[("close", [Val.num 1, Val.num 2])]⟩
    ["SMA_20"] [] "FOO" (by decide)
  exact ⟨h.1, h.2 rfl⟩
